import Mathlib

/-!
Verification of the dependency-free ZIP reader and CSV parser found in
scripts/build-static-gtfs.mjs and scripts/fetch-gtfsrt.mjs (the two scripts
contain byte-for-byte the same reader logic, so a single embedding covers
both call sites).

Files are modelled as lists of bytes (List Nat, each element < 256 in real
inputs); reading past the end of a freshly allocated Node Buffer yields the
zero bytes that Buffer.alloc put there, which is what List.getD with
default 0 gives us.  Decoded text is modelled as the raw byte list (UTF-8
decoding is injective on the byte sequences involved here), and CSV text as
List Char.  The external zlib.inflateRawSync collaborator is an explicit
function parameter.
-/

set_option maxRecDepth 10000

/-- Byte at position pos of a buffer; 0 beyond the end (Buffer.alloc zero-fill). -/
def byteAt (f : List Nat) (pos : Nat) : Nat := f.getD pos 0

/-- Buffer.readUInt16LE. -/
def readU16 (f : List Nat) (pos : Nat) : Nat :=
  byteAt f pos + 256 * byteAt f (pos + 1)

/-- Buffer.readUInt32LE. -/
def readU32 (f : List Nat) (pos : Nat) : Nat :=
  byteAt f pos + 256 * byteAt f (pos + 1) + 65536 * byteAt f (pos + 2) +
    16777216 * byteAt f (pos + 3)

/-- fs.readSync into a Buffer.alloc len buffer at absolute position pos:
bytes of the file, zero-filled past end of file. -/
def readBytes (f : List Nat) (pos : Nat) : Nat → List Nat
  | 0 => []
  | len + 1 => byteAt f pos :: readBytes f (pos + 1) len

/-- The backward EOCD scan: for i = hi, hi-1, ..., 0, return the first i whose
4 little-endian bytes equal 0x06054b50 (mirrors the for-loop in readFromZip). -/
def findSigDown (tail : List Nat) : Nat → Option Nat
  | 0 => if readU32 tail 0 = 0x06054b50 then some 0 else none
  | i + 1 => if readU32 tail (i + 1) = 0x06054b50 then some (i + 1) else findSigDown tail i

/-- EOCD location in readFromZip: readTail = min(size, 22 + 0xffff) bytes are
read from the end of the file and scanned backward starting at readTail - 22;
the loop body never runs when readTail < 22.  Returns the absolute offset. -/
def findEocd (f : List Nat) : Option Nat :=
  if 22 ≤ min f.length 65557 then
    (findSigDown (f.drop (f.length - min f.length 65557)) (min f.length 65557 - 22)).map
      (fun i => f.length - min f.length 65557 + i)
  else none

/-- One parsed central-directory record ({name, localHdrOff, compSize,
uncompSize, method} in the scripts). -/
structure Entry where
  name : List Nat
  localHdrOff : Nat
  compSize : Nat
  uncompSize : Nat
  method : Nat
deriving DecidableEq, Repr

/-- The error cases actually thrown by the scripts' ZIP reader. -/
inductive ZipError where
  | eocdNotFound
  | localHeaderBroken
  | unsupportedMethod (code : Nat)
deriving DecidableEq, Repr

/-- The while-loop walking the central directory buffer: at each position p
with p + 46 <= cdBuf.length, stop unless the signature 0x02014b50 matches,
otherwise record the entry and advance by 46 + nameLen + extraLen + commLen.
The name is cdBuf.slice(p+46, p+46+nameLen), which clamps at the buffer end.
Fuel bounds the iteration count; parseCd supplies enough for every input. -/
def parseCdGo (cdBuf : List Nat) : Nat → Nat → List Entry
  | 0, _ => []
  | fuel + 1, p =>
    if p + 46 ≤ cdBuf.length then
      if readU32 cdBuf p = 0x02014b50 then
        let nameLen := readU16 cdBuf (p + 28)
        let extraLen := readU16 cdBuf (p + 30)
        let commLen := readU16 cdBuf (p + 32)
        { name := (cdBuf.drop (p + 46)).take nameLen
          localHdrOff := readU32 cdBuf (p + 42)
          compSize := readU32 cdBuf (p + 20)
          uncompSize := readU32 cdBuf (p + 24)
          method := readU16 cdBuf (p + 10) } ::
          parseCdGo cdBuf fuel (p + 46 + nameLen + extraLen + commLen)
      else []
    else []

/-- Walk of the whole central-directory buffer; each loop iteration advances p
by at least 46, so cdBuf.length + 1 units of fuel always suffice. -/
def parseCd (cdBuf : List Nat) : List Entry :=
  parseCdGo cdBuf (cdBuf.length + 1) 0

/-- Node path.basename helper: drop trailing '/' bytes (47). -/
def rstripSlashes (s : List Nat) : List Nat :=
  (s.reverse.dropWhile (fun c => c == 47)).reverse

/-- Node path.basename helper: longest suffix without a '/' byte. -/
def lastSeg (s : List Nat) : List Nat :=
  (s.reverse.takeWhile (fun c => c != 47)).reverse

/-- Modelled external collaborator path.basename (posix): trailing slashes are
ignored and the final path segment is returned; a string of only slashes (or
empty) gives the empty string.  UTF-8 never uses byte 47 inside a multi-byte
sequence, so working on bytes agrees with Node working on the decoded string. -/
def bname (s : List Nat) : List Nat := lastSeg (rstripSlashes s)

/-- Modelled external collaborator String.prototype.toLowerCase restricted to
the ASCII range used by the member names the scripts request. -/
def lowerBytes (s : List Nat) : List Nat :=
  s.map (fun c => if 65 ≤ c ∧ c ≤ 90 then c + 32 else c)

/-- JS object property write out[k] = v: replace the value of an existing key
in place, otherwise append the new key in insertion order. -/
def objSet {α β : Type} [DecidableEq α] : List (α × β) → α → β → List (α × β)
  | [], k, v => [(k, v)]
  | kv :: rest, k, v => if kv.1 = k then (k, v) :: rest else kv :: objSet rest k v

/-- JS object property read out[k] (the keys of an object are unique, so the
first binding found is the binding). -/
def objGet {α β : Type} [DecidableEq α] : List (α × β) → α → Option β
  | [], _ => none
  | kv :: rest, k => if kv.1 = k then some kv.2 else objGet rest k

/-- Method dispatch at the end of extractEntryAsText: stored bytes pass
through, method 8 goes through the inflate collaborator, anything else throws
the unsupported-method error carrying the method code. -/
def decompress (inflate : List Nat → List Nat) (method : Nat) (data : List Nat) :
    Except ZipError (List Nat) :=
  if method = 0 then .ok data
  else if method = 8 then .ok (inflate data)
  else .error (.unsupportedMethod method)

/-- extractEntryAsText: read the 30-byte local header at e.localHdrOff, throw
unless its first 4 bytes are 0x04034b50, take nameLen/extraLen from the local
header at offsets 26 and 28, read compSize bytes at
localHdrOff + 30 + nameLen + extraLen, then dispatch on the method. -/
def extractEntry (inflate : List Nat → List Nat) (f : List Nat) (e : Entry) :
    Except ZipError (List Nat) :=
  let header := readBytes f e.localHdrOff 30
  if readU32 header 0 ≠ 0x04034b50 then .error .localHeaderBroken
  else
    let nameLen := readU16 header 26
    let extraLen := readU16 header 28
    let dataStart := e.localHdrOff + 30 + nameLen + extraLen
    decompress inflate e.method (readBytes f dataStart e.compSize)

/-- The for-of loop over the picked entries, filling the out object with
out[path.basename(e.name)] = extractEntryAsText(fd, e); the first thrown
error aborts the loop. -/
def extractLoop (inflate : List Nat → List Nat) (f : List Nat) :
    List Entry → List (List Nat × List Nat) →
    Except ZipError (List (List Nat × List Nat))
  | [], out => .ok out
  | e :: rest, out =>
    match extractEntry inflate f e with
    | .error err => .error err
    | .ok text => extractLoop inflate f rest (objSet out (bname e.name) text)

/-- Everything readFromZip does after the EOCD is located, given the u32
fields it read at eocdOffset + 12 (central-directory size) and + 16 (offset):
read the central-directory buffer, walk it, pick the entries whose lowercased
basename is in the lowercased wanted set, extract them in order, and only
then reach fs.closeSync.  The Bool records whether closeSync executed. -/
def cdPhase (inflate : List Nat → List Nat) (f : List Nat)
    (want : List (List Nat)) (cdSize cdOffset : Nat) :
    Except ZipError (List (List Nat × List Nat)) × Bool :=
  let cdBuf := readBytes f cdOffset cdSize
  let entries := parseCd cdBuf
  let wantSet := want.map lowerBytes
  let pick := entries.filter (fun e => wantSet.contains (lowerBytes (bname e.name)))
  match extractLoop inflate f pick [] with
  | .error err => (.error err, false)
  | .ok out => (.ok out, true)

/-- readFromZip as in both scripts.  The file handle is opened first; the
returned Bool is true exactly when control reached the fs.closeSync(fd) call
placed after the extraction loop — a thrown error skips it. -/
def readFromZip (inflate : List Nat → List Nat) (f : List Nat)
    (want : List (List Nat)) :
    Except ZipError (List (List Nat × List Nat)) × Bool :=
  match findEocd f with
  | none => (.error .eocdNotFound, false)
  | some eocdOffset =>
    cdPhase inflate f want (readU32 f (eocdOffset + 12)) (readU32 f (eocdOffset + 16))

/-! ## CSV parser (parseCsv / splitCsvLine in both scripts) -/

/-- text.replace(/﻿/, "") with neither anchor nor global flag: remove the
first occurrence of U+FEFF anywhere in the text, keep everything else. -/
def stripFirstBom : List Char → List Char
  | [] => []
  | c :: rest => if c = '\uFEFF' then rest else c :: stripFirstBom rest

/-- text.split(/\r?\n/): a separator is a lone '\n' or the pair "\r\n"; a
'\r' not followed by '\n' is ordinary content.  cur accumulates the current
line in reverse. -/
def splitLinesAux : List Char → List Char → List (List Char)
  | [], cur => [cur.reverse]
  | '\r' :: '\n' :: rest, cur => cur.reverse :: splitLinesAux rest []
  | '\n' :: rest, cur => cur.reverse :: splitLinesAux rest []
  | c :: rest, cur => splitLinesAux rest (c :: cur)

/-- text.split(/\r?\n/). -/
def splitLines (text : List Char) : List (List Char) := splitLinesAux text []

/-- The character loop of splitCsvLine: a quote toggles inQ except that a
doubled quote while inside quotes appends one literal quote; a comma outside
quotes ends the field; everything else is appended verbatim; the end of the
line emits the final field.  cur accumulates the current field in reverse. -/
def splitCsvAux : List Char → List Char → Bool → List (List Char)
  | [], cur, _ => [cur.reverse]
  | '"' :: '"' :: rest, cur, true => splitCsvAux rest ('"' :: cur) true
  | '"' :: rest, cur, inQ =>
    if inQ then splitCsvAux rest cur false else splitCsvAux rest cur true
  | ',' :: rest, cur, inQ =>
    if inQ then splitCsvAux rest (',' :: cur) true
    else cur.reverse :: splitCsvAux rest [] false
  | c :: rest, cur, inQ => splitCsvAux rest (c :: cur) inQ

/-- splitCsvLine as in both scripts. -/
def splitCsvLine (line : List Char) : List (List Char) :=
  splitCsvAux line [] false

/-- The non-empty lines parseCsv works on, after the replace call. -/
def csvLinesNoBom (t : List Char) : List (List Char) :=
  (splitLines t).filter (fun l => decide (0 < l.length))

/-- header.forEach((h, j) => row[h] = cols[j] ?? ""): build one record by
assigning each header column the positional field, empty string when the row
is short; JS object assignment semantics via objSet. -/
def mkRow (header cols : List (List Char)) : List (List Char × List Char) :=
  header.enum.foldl (fun row hj => objSet row hj.2 (cols.getD hj.1 [])) []

/-- parseCsv after the BOM replace: first non-empty line is the header, each
later non-empty line becomes a record unless it splits to exactly one empty
field (cols.length === 1 && cols[0] === ""). -/
def parseCsvNoBom (t : List Char) : List (List (List Char × List Char)) :=
  match csvLinesNoBom t with
  | [] => []
  | headerLine :: dataLines =>
    let header := splitCsvLine headerLine
    dataLines.filterMap (fun line =>
      let cols := splitCsvLine line
      if cols = [[]] then none else some (mkRow header cols))

/-- parseCsv as in both scripts. -/
def parseCsv (text : List Char) : List (List (List Char × List Char)) :=
  parseCsvNoBom (stripFirstBom text)

/-- Lines seen by parseCsv, including the BOM replace (for record counting). -/
def csvLines (text : List Char) : List (List Char) :=
  csvLinesNoBom (stripFirstBom text)

/-! ## Concrete archive buffers for witnesses and counterexamples -/

/-- String to character list. -/
def s2l (s : String) : List Char := s.data

/-- ASCII string to byte list. -/
def s2b (s : String) : List Nat := s.data.map Char.toNat

/-- Two little-endian bytes of a u16. -/
def le16 (n : Nat) : List Nat := [n % 256, n / 256 % 256]

/-- Four little-endian bytes of a u32. -/
def le32 (n : Nat) : List Nat :=
  [n % 256, n / 256 % 256, n / 65536 % 256, n / 16777216 % 256]

/-- A 30-byte ZIP local file header followed by the name: signature,
version/flags, method, time/date/crc zeroed, sizes, name length, no extra. -/
def locHeader (method csize usize : Nat) (name : List Nat) : List Nat :=
  le32 0x04034b50 ++ List.replicate 4 0 ++ le16 method ++ List.replicate 8 0 ++
    le32 csize ++ le32 usize ++ le16 name.length ++ le16 0 ++ name

/-- A 46-byte ZIP central-directory header followed by the name. -/
def cdHeader (method csize usize locOff : Nat) (name : List Nat) : List Nat :=
  le32 0x02014b50 ++ List.replicate 6 0 ++ le16 method ++ List.replicate 8 0 ++
    le32 csize ++ le32 usize ++ le16 name.length ++ le16 0 ++ le16 0 ++
    List.replicate 8 0 ++ le32 locOff ++ name

/-- A 22-byte end-of-central-directory record with empty comment. -/
def eocdRec (cdSize cdOff : Nat) : List Nat :=
  le32 0x06054b50 ++ List.replicate 8 0 ++ le32 cdSize ++ le32 cdOff ++ le16 0

/-- An archive holding a/t.txt = "FIRST" and b/t.txt = "SECOND", both stored,
in that central-directory order; both basenames are t.txt. -/
def zipDup : List Nat :=
  locHeader 0 5 5 (s2b "a/t.txt") ++ s2b "FIRST" ++
    locHeader 0 6 6 (s2b "b/t.txt") ++ s2b "SECOND" ++
    cdHeader 0 5 5 0 (s2b "a/t.txt") ++
    cdHeader 0 6 6 42 (s2b "b/t.txt") ++
    eocdRec 106 85

/-- An archive whose end-of-central-directory record points at 50 zero bytes:
the first entry boundary of the walk carries no 0x02014b50 signature. -/
def zipBadCd : List Nat := List.replicate 50 0 ++ eocdRec 50 0

/-- An archive with one central-directory entry t.txt whose local-header
offset points at zero bytes, so extraction finds no 0x04034b50 signature. -/
def zipBadLocal : List Nat :=
  List.replicate 30 0 ++ cdHeader 0 0 0 0 (s2b "t.txt") ++ eocdRec 51 30

/-! ## Basic lemmas about the byte-level helpers -/

instance {ε α : Type} [DecidableEq ε] [DecidableEq α] : DecidableEq (Except ε α) := fun a b =>
  match a, b with
  | .error e, .error f =>
    if h : e = f then .isTrue (congrArg Except.error h)
    else .isFalse (fun hh => h (Except.error.inj hh))
  | .error _, .ok _ => .isFalse (fun hh => Except.noConfusion hh)
  | .ok _, .error _ => .isFalse (fun hh => Except.noConfusion hh)
  | .ok x, .ok y =>
    if h : x = y then .isTrue (congrArg Except.ok h)
    else .isFalse (fun hh => h (Except.ok.inj hh))

theorem byteAt_drop (f : List Nat) (d i : Nat) :
    byteAt (f.drop d) i = byteAt f (d + i) := by
  simp [byteAt, List.getD_eq_getElem?_getD, List.getElem?_drop]

theorem readU32_drop (f : List Nat) (d i : Nat) :
    readU32 (f.drop d) i = readU32 f (d + i) := by
  simp [readU32, byteAt_drop, Nat.add_assoc]

theorem byteAt_readBytes (f : List Nat) :
    ∀ (len pos i : Nat), i < len → byteAt (readBytes f pos len) i = byteAt f (pos + i) := by
  intro len
  induction len with
  | zero => intro pos i h; omega
  | succ n ih =>
    intro pos i h
    cases i with
    | zero => simp [readBytes, byteAt]
    | succ j =>
      have := ih (pos + 1) j (by omega)
      simp only [readBytes, byteAt, List.getD_cons_succ] at *
      rw [this]
      simp [Nat.add_assoc, Nat.add_comm 1 j]

theorem readU16_readBytes (f : List Nat) (pos len i : Nat) (h : i + 1 < len) :
    readU16 (readBytes f pos len) i = readU16 f (pos + i) := by
  unfold readU16
  rw [byteAt_readBytes f len pos i (by omega), byteAt_readBytes f len pos (i + 1) (by omega)]
  simp [Nat.add_assoc]

theorem readU32_readBytes (f : List Nat) (pos len i : Nat) (h : i + 3 < len) :
    readU32 (readBytes f pos len) i = readU32 f (pos + i) := by
  unfold readU32
  rw [byteAt_readBytes f len pos i (by omega), byteAt_readBytes f len pos (i + 1) (by omega),
    byteAt_readBytes f len pos (i + 2) (by omega), byteAt_readBytes f len pos (i + 3) (by omega)]
  simp [Nat.add_assoc]

/-! ## The EOCD scan characterized -/

theorem findSigDown_eq_some_iff (t : List Nat) :
    ∀ i j, findSigDown t i = some j ↔
      (j ≤ i ∧ readU32 t j = 0x06054b50 ∧
        ∀ k, j < k → k ≤ i → readU32 t k ≠ 0x06054b50) := by
  intro i
  induction i with
  | zero =>
    intro j
    by_cases h : readU32 t 0 = 0x06054b50
    · simp only [findSigDown, if_pos h]
      constructor
      · intro hj
        injection hj with hj
        subst hj
        exact ⟨Nat.le_refl 0, h, fun k hk hk' => by omega⟩
      · intro ⟨hj, _, _⟩
        have : j = 0 := by omega
        simp [this]
    · simp only [findSigDown, if_neg h]
      constructor
      · intro hj; exact absurd hj (by simp)
      · intro ⟨hj, hsig, _⟩
        have : j = 0 := by omega
        subst this
        exact absurd hsig h
  | succ i ih =>
    intro j
    by_cases h : readU32 t (i + 1) = 0x06054b50
    · simp only [findSigDown, if_pos h]
      constructor
      · intro hj
        injection hj with hj
        subst hj
        exact ⟨Nat.le_refl _, h, fun k hk hk' => by omega⟩
      · intro ⟨hj, hsig, hno⟩
        by_cases hje : j = i + 1
        · simp [hje]
        · exact absurd h (hno (i + 1) (by omega) (by omega))
    · simp only [findSigDown, if_neg h]
      rw [ih j]
      constructor
      · intro ⟨hj, hsig, hno⟩
        refine ⟨by omega, hsig, fun k hk hk' => ?_⟩
        by_cases hke : k = i + 1
        · subst hke; exact h
        · exact hno k hk (by omega)
      · intro ⟨hj, hsig, hno⟩
        have hji : j ≤ i := by
          rcases Nat.lt_or_ge j (i + 1) with hl | hl
          · omega
          · have : j = i + 1 := by omega
            subst this
            exact absurd hsig h
        exact ⟨hji, hsig, fun k hk hk' => hno k hk (by omega)⟩

theorem findSigDown_eq_none_iff (t : List Nat) :
    ∀ i, findSigDown t i = none ↔ ∀ k, k ≤ i → readU32 t k ≠ 0x06054b50 := by
  intro i
  induction i with
  | zero =>
    by_cases h : readU32 t 0 = 0x06054b50
    · simp only [findSigDown, if_pos h]
      constructor
      · intro hh; exact absurd hh (by simp)
      · intro hh; exact absurd h (hh 0 (Nat.le_refl 0))
    · simp only [findSigDown, if_neg h]
      constructor
      · intro _ k hk
        have : k = 0 := by omega
        simp [this, h]
      · intro _; trivial
  | succ i ih =>
    by_cases h : readU32 t (i + 1) = 0x06054b50
    · simp only [findSigDown, if_pos h]
      constructor
      · intro hh; exact absurd hh (by simp)
      · intro hh; exact absurd h (hh (i + 1) (Nat.le_refl _))
    · simp only [findSigDown, if_neg h]
      rw [ih]
      constructor
      · intro hh k hk
        by_cases hke : k = i + 1
        · subst hke; exact h
        · exact hh k (by omega)
      · intro hh k hk
        exact hh k (by omega)

theorem findEocd_eq_some_iff (f : List Nat) (off : Nat) :
    findEocd f = some off ↔
      (off + 22 ≤ f.length ∧ f.length ≤ off + 65557 ∧
        readU32 f off = 0x06054b50 ∧
        ∀ j, off < j → j + 22 ≤ f.length → readU32 f j ≠ 0x06054b50) := by
  have hrt1 : min f.length 65557 ≤ f.length := Nat.min_le_left _ _
  have hrt2 : min f.length 65557 ≤ 65557 := Nat.min_le_right _ _
  have hrtc : min f.length 65557 = f.length ∨ min f.length 65557 = 65557 := by
    rcases Nat.le_total f.length 65557 with h | h
    · exact Or.inl (Nat.min_eq_left h)
    · exact Or.inr (Nat.min_eq_right h)
  unfold findEocd
  by_cases h22 : 22 ≤ min f.length 65557
  · rw [if_pos h22, Option.map_eq_some']
    constructor
    · rintro ⟨i, hi, hoff⟩
      rw [findSigDown_eq_some_iff] at hi
      obtain ⟨hile, hsig, hno⟩ := hi
      rw [readU32_drop] at hsig
      refine ⟨by omega, by omega, by rw [← hoff]; exact hsig, ?_⟩
      intro j hj hj22 hsigj
      apply hno (j - (f.length - min f.length 65557)) (by omega) (by omega)
      rw [readU32_drop]
      have hjd : f.length - min f.length 65557 +
          (j - (f.length - min f.length 65557)) = j := by omega
      rw [hjd]
      exact hsigj
    · rintro ⟨h1, h2, hsig, hno⟩
      have hoffge : f.length - min f.length 65557 ≤ off := by
        rcases hrtc with hc | hc <;> omega
      refine ⟨off - (f.length - min f.length 65557), ?_, by omega⟩
      rw [findSigDown_eq_some_iff]
      refine ⟨by omega, ?_, ?_⟩
      · rw [readU32_drop]
        have hd : f.length - min f.length 65557 +
            (off - (f.length - min f.length 65557)) = off := by omega
        rw [hd]
        exact hsig
      · intro k hk hk22 hsigk
        rw [readU32_drop] at hsigk
        exact hno _ (by omega) (by omega) hsigk
  · rw [if_neg h22]
    constructor
    · intro hh; exact absurd hh (by simp)
    · rintro ⟨h1, h2, _, _⟩
      exfalso
      rcases hrtc with hc | hc <;> omega

theorem findEocd_eq_none_iff (f : List Nat) :
    findEocd f = none ↔
      ∀ j, j + 22 ≤ f.length → f.length ≤ j + 65557 → readU32 f j ≠ 0x06054b50 := by
  have hrt1 : min f.length 65557 ≤ f.length := Nat.min_le_left _ _
  have hrt2 : min f.length 65557 ≤ 65557 := Nat.min_le_right _ _
  have hrtc : min f.length 65557 = f.length ∨ min f.length 65557 = 65557 := by
    rcases Nat.le_total f.length 65557 with h | h
    · exact Or.inl (Nat.min_eq_left h)
    · exact Or.inr (Nat.min_eq_right h)
  unfold findEocd
  by_cases h22 : 22 ≤ min f.length 65557
  · rw [if_pos h22, Option.map_eq_none']
    rw [findSigDown_eq_none_iff]
    constructor
    · intro hh j hj22 hjwin hsigj
      apply hh (j - (f.length - min f.length 65557)) (by rcases hrtc with hc | hc <;> omega)
      rw [readU32_drop]
      have hjd : f.length - min f.length 65557 +
          (j - (f.length - min f.length 65557)) = j := by
        rcases hrtc with hc | hc <;> omega
      rw [hjd]
      exact hsigj
    · intro hh k hk hsigk
      rw [readU32_drop] at hsigk
      exact hh _ (by omega) (by rcases hrtc with hc | hc <;> omega) hsigk
  · rw [if_neg h22]
    constructor
    · intro _ j hj22 _ _
      rcases hrtc with hc | hc <;> omega
    · intro _; rfl

theorem findEocd_short (f : List Nat) (h : f.length < 22) : findEocd f = none := by
  unfold findEocd
  rw [if_neg]
  intro hh
  have := Nat.min_le_left f.length 65557
  omega

/-- C1: the reader examines exactly the last min(file_size, 65557) bytes,
scanning backward byte-by-byte from the highest offset at which a full
22-byte EOCD still fits, and takes the first (hence highest) position whose 4
little-endian bytes equal 0x06054b50; central-directory size and offset are
then read as u32 at 12 and 16 bytes past that position; when no position of
the tail window matches (in particular for any input shorter than 22 bytes)
the call fails with the EOCD-not-found error and returns no mapping. -/
theorem eocd_scan_spec :
    (∀ (f : List Nat) (off : Nat), findEocd f = some off ↔
        (off + 22 ≤ f.length ∧ f.length ≤ off + 65557 ∧
          readU32 f off = 0x06054b50 ∧
          ∀ j, off < j → j + 22 ≤ f.length → readU32 f j ≠ 0x06054b50)) ∧
    (∀ f : List Nat, findEocd f = none ↔
        ∀ j, j + 22 ≤ f.length → f.length ≤ j + 65557 → readU32 f j ≠ 0x06054b50) ∧
    (∀ f : List Nat, f.length < 22 → findEocd f = none) ∧
    (∀ (inflate : List Nat → List Nat) (f : List Nat) (want : List (List Nat)),
        findEocd f = none →
          readFromZip inflate f want = (.error .eocdNotFound, false)) ∧
    (∀ (inflate : List Nat → List Nat) (f : List Nat) (want : List (List Nat)) (off : Nat),
        findEocd f = some off →
          readFromZip inflate f want =
            cdPhase inflate f want (readU32 f (off + 12)) (readU32 f (off + 16))) := by
  refine ⟨findEocd_eq_some_iff, findEocd_eq_none_iff, findEocd_short, ?_, ?_⟩
  · intro inflate f want h
    simp [readFromZip, h]
  · intro inflate f want off h
    simp [readFromZip, h]

theorem eocd_scan_spec_witness :
    readFromZip (fun d => d) (List.replicate 10 0) [] =
      (.error .eocdNotFound, false) :=
  eocd_scan_spec.2.2.2.1 (fun d => d) (List.replicate 10 0) []
    (eocd_scan_spec.2.2.1 (List.replicate 10 0) (by decide))

/-! ## Local-header extraction (C2, C3) -/

theorem extractEntry_sig_bad (inflate : List Nat → List Nat) (f : List Nat)
    (e : Entry) (h : readU32 f e.localHdrOff ≠ 0x04034b50) :
    extractEntry inflate f e = .error .localHeaderBroken := by
  have hs : readU32 (readBytes f e.localHdrOff 30) 0 = readU32 f e.localHdrOff := by
    have := readU32_readBytes f e.localHdrOff 30 0 (by omega)
    simpa using this
  simp [extractEntry, hs, h]

theorem extractEntry_sig_ok (inflate : List Nat → List Nat) (f : List Nat)
    (e : Entry) (h : readU32 f e.localHdrOff = 0x04034b50) :
    extractEntry inflate f e =
      decompress inflate e.method
        (readBytes f
          (e.localHdrOff + 30 + readU16 f (e.localHdrOff + 26) +
            readU16 f (e.localHdrOff + 28))
          e.compSize) := by
  have hs : readU32 (readBytes f e.localHdrOff 30) 0 = readU32 f e.localHdrOff := by
    have := readU32_readBytes f e.localHdrOff 30 0 (by omega)
    simpa using this
  have h26 : readU16 (readBytes f e.localHdrOff 30) 26 = readU16 f (e.localHdrOff + 26) :=
    readU16_readBytes f e.localHdrOff 30 26 (by omega)
  have h28 : readU16 (readBytes f e.localHdrOff 30) 28 = readU16 f (e.localHdrOff + 28) :=
    readU16_readBytes f e.localHdrOff 30 28 (by omega)
  simp [extractEntry, hs, h, h26, h28]

/-- C2: extraction of a selected entry reads the 30-byte local header at the
entry's local-header offset and fails as a corrupt local header unless its
first 4 bytes are 0x04034b50; with a valid signature it reads exactly
compressed_size bytes starting at local_header_offset + 30 + nameLen +
extraLen where nameLen and extraLen are the u16 values at offsets 26 and 28
of the local header itself (an Entry carries no central-directory copy of
those lengths at all). -/
theorem local_header_spec (inflate : List Nat → List Nat) (f : List Nat) (e : Entry) :
    (readU32 f e.localHdrOff ≠ 0x04034b50 →
      extractEntry inflate f e = .error .localHeaderBroken) ∧
    (readU32 f e.localHdrOff = 0x04034b50 →
      extractEntry inflate f e =
        decompress inflate e.method
          (readBytes f
            (e.localHdrOff + 30 + readU16 f (e.localHdrOff + 26) +
              readU16 f (e.localHdrOff + 28))
            e.compSize)) :=
  ⟨extractEntry_sig_bad inflate f e, extractEntry_sig_ok inflate f e⟩

theorem local_header_spec_witness :
    extractEntry (fun d => d) (List.replicate 40 0) ⟨s2b "t", 0, 1, 1, 0⟩ =
        .error .localHeaderBroken ∧
    extractEntry (fun d => d) zipDup ⟨s2b "a/t.txt", 0, 5, 5, 0⟩ =
        .ok (s2b "FIRST") := by
  constructor
  · exact (local_header_spec (fun d => d) (List.replicate 40 0)
      ⟨s2b "t", 0, 1, 1, 0⟩).1 (by decide)
  · have h := (local_header_spec (fun d => d) zipDup ⟨s2b "a/t.txt", 0, 5, 5, 0⟩).2 (by decide)
    exact h.trans (by decide)

/-- C3: with a valid local-header signature, method 0 returns the compressed
bytes as-is, method 8 returns the raw-inflate collaborator applied to them,
and every other method code fails with the unsupported-method error carrying
that code (so no output is produced for that member). -/
theorem method_dispatch_spec (inflate : List Nat → List Nat) (f : List Nat)
    (e : Entry) (hsig : readU32 f e.localHdrOff = 0x04034b50) :
    (e.method = 0 →
      extractEntry inflate f e =
        .ok (readBytes f
          (e.localHdrOff + 30 + readU16 f (e.localHdrOff + 26) +
            readU16 f (e.localHdrOff + 28)) e.compSize)) ∧
    (e.method = 8 →
      extractEntry inflate f e =
        .ok (inflate (readBytes f
          (e.localHdrOff + 30 + readU16 f (e.localHdrOff + 26) +
            readU16 f (e.localHdrOff + 28)) e.compSize))) ∧
    (e.method ≠ 0 → e.method ≠ 8 →
      extractEntry inflate f e = .error (.unsupportedMethod e.method)) := by
  rw [extractEntry_sig_ok inflate f e hsig]
  refine ⟨?_, ?_, ?_⟩
  · intro h0; simp [decompress, h0]
  · intro h8; simp [decompress, h8]
  · intro h0 h8; simp [decompress, h0, h8]

theorem method_dispatch_spec_witness :
    extractEntry (fun d => d) zipDup ⟨s2b "x", 0, 5, 5, 12⟩ =
      .error (.unsupportedMethod 12) :=
  (method_dispatch_spec (fun d => d) zipDup ⟨s2b "x", 0, 5, 5, 12⟩ (by decide)).2.2
    (by decide) (by decide)

/-! ## Duplicate basenames (C4) -/

theorem objGet_objSet_self {α β : Type} [DecidableEq α] (m : List (α × β)) (k : α) (v : β) :
    objGet (objSet m k v) k = some v := by
  induction m with
  | nil => simp [objSet, objGet]
  | cons kv rest ih =>
    by_cases h : kv.1 = k
    · simp [objSet, objGet, h]
    · simp [objSet, objGet, h, ih]

theorem objGet_objSet_ne {α β : Type} [DecidableEq α] (m : List (α × β)) (k k' : α) (v : β)
    (h : k' ≠ k) : objGet (objSet m k' v) k = objGet m k := by
  induction m with
  | nil => simp [objSet, objGet, h]
  | cons kv rest ih =>
    simp only [objSet]
    by_cases h1 : kv.1 = k'
    · rw [if_pos h1]
      simp only [objGet]
      rw [if_neg h, if_neg (h1 ▸ h)]
    · rw [if_neg h1]
      simp only [objGet]
      by_cases h2 : kv.1 = k
      · rw [if_pos h2, if_pos h2]
      · rw [if_neg h2, if_neg h2]
        exact ih

/-- Specification device for the amended C4: the last entry of the list whose
path basename equals k, when any. -/
def lastMatch (k : List Nat) : List Entry → Option Entry
  | [] => none
  | e :: rest =>
    match lastMatch k rest with
    | some r => some r
    | none => if bname e.name = k then some e else none

/-- The entries readFromZip parses out of the archive's central directory. -/
def archiveEntries (f : List Nat) : List Entry :=
  match findEocd f with
  | some off => parseCd (readBytes f (readU32 f (off + 16)) (readU32 f (off + 12)))
  | none => []

/-- C4 as stated is false on the code: in zipDup the central directory lists
a/t.txt (content FIRST) before b/t.txt (content SECOND), both with basename
t.txt, yet requesting t.txt returns SECOND — the content of the last entry,
not the first. -/
theorem dup_basename_counterexample :
    ((archiveEntries zipDup).map Entry.name = [s2b "a/t.txt", s2b "b/t.txt"] ∧
      bname (s2b "a/t.txt") = s2b "t.txt" ∧ bname (s2b "b/t.txt") = s2b "t.txt") ∧
    (archiveEntries zipDup).map (extractEntry (fun d => d) zipDup) =
      [.ok (s2b "FIRST"), .ok (s2b "SECOND")] ∧
    (readFromZip (fun d => d) zipDup [s2b "t.txt"]).1 =
      .ok [(s2b "t.txt", s2b "SECOND")] ∧
    s2b "FIRST" ≠ s2b "SECOND" := by
  refine ⟨⟨?_, ?_, ?_⟩, ?_, ?_, ?_⟩ <;> decide

/-- C4 amended: because each extracted entry is written into the output
object under its exact basename, an entry seen later overwrites an earlier
one with the same basename, so the mapping binds a basename to the decoded
content of the LAST entry in central-directory order whose basename equals
it; with no matching entry the binding present before the loop survives. -/
theorem extract_last_match_wins (inflate : List Nat → List Nat) (f : List Nat) :
    ∀ (pick : List Entry) (out m : List (List Nat × List Nat)) (k : List Nat),
      extractLoop inflate f pick out = .ok m →
      objGet m k =
        (match lastMatch k pick with
          | some e => (extractEntry inflate f e).toOption
          | none => objGet out k) := by
  intro pick
  induction pick with
  | nil =>
    intro out m k h
    simp only [extractLoop, Except.ok.injEq] at h
    subst h
    simp [lastMatch]
  | cons e rest ih =>
    intro out m k h
    simp only [extractLoop] at h
    cases he : extractEntry inflate f e with
    | error err => rw [he] at h; exact absurd h (by simp)
    | ok t =>
      rw [he] at h
      rw [ih (objSet out (bname e.name) t) m k h]
      cases hlm : lastMatch k rest with
      | some r => simp [lastMatch, hlm]
      | none =>
        simp only [lastMatch, hlm]
        by_cases hbk : bname e.name = k
        · rw [if_pos hbk, hbk, objGet_objSet_self]
          show some t = (extractEntry inflate f e).toOption
          rw [he]
          rfl
        · rw [if_neg hbk, objGet_objSet_ne out k (bname e.name) t hbk]

theorem extract_last_match_wins_witness :
    objGet [(s2b "t.txt", s2b "SECOND")] (s2b "t.txt") = some (s2b "SECOND") := by
  have h := extract_last_match_wins (fun d => d) zipDup (archiveEntries zipDup) []
    [(s2b "t.txt", s2b "SECOND")] (s2b "t.txt") (by decide)
  exact h.trans (by decide)

/-! ## Central-directory walk stop (C5) -/

/-- C5 as stated is false on the code: in zipBadCd the central-directory
buffer starts with a non-matching signature, yet the call does not fail at
all — it returns an empty mapping and even reaches fs.closeSync. -/
theorem cd_corrupt_counterexample :
    readFromZip (fun d => d) zipBadCd [s2b "t.txt"] = (.ok [], true) := by
  decide

/-- C5 amended: 4 bytes at an entry boundary that do not equal 0x02014b50
merely stop the central-directory walk (no entry is produced from that point
on); when the very first boundary mismatches the call completes successfully
with an empty mapping rather than raising any central-directory error. -/
theorem cd_walk_stop_spec :
    (∀ (cdBuf : List Nat) (fuel p : Nat), readU32 cdBuf p ≠ 0x02014b50 →
        parseCdGo cdBuf fuel p = []) ∧
    (∀ (inflate : List Nat → List Nat) (f : List Nat) (want : List (List Nat)) (off : Nat),
        findEocd f = some off →
        readU32 (readBytes f (readU32 f (off + 16)) (readU32 f (off + 12))) 0 ≠ 0x02014b50 →
        readFromZip inflate f want = (.ok [], true)) := by
  have hstop : ∀ (cdBuf : List Nat) (fuel p : Nat), readU32 cdBuf p ≠ 0x02014b50 →
      parseCdGo cdBuf fuel p = [] := by
    intro cdBuf fuel p h
    cases fuel with
    | zero => rfl
    | succ n => simp [parseCdGo, h]
  refine ⟨hstop, ?_⟩
  intro inflate f want off heocd hbad
  simp only [readFromZip, heocd]
  simp [cdPhase, parseCd, hstop _ _ _ hbad, extractLoop]

theorem cd_walk_stop_spec_witness :
    parseCdGo (List.replicate 50 0) 51 0 = [] :=
  cd_walk_stop_spec.1 (List.replicate 50 0) 51 0 (by decide)

/-! ## File-handle release (C9) -/

/-- C9 meets the code's behaviour at zipBadLocal: the selected entry's local
header lacks the 0x04034b50 signature, the extraction throws, and the flag
recording that control reached fs.closeSync(fd) is false — the handle opened
at the start of the call is NOT released on this error path (there is no
try/finally around the extraction loop). -/
theorem fd_leak_on_error :
    readFromZip (fun d => d) zipBadLocal [s2b "t.txt"] =
      (.error .localHeaderBroken, false) := by
  decide

/-! ## CSV field splitting and record building (C6, C7) -/

theorem objSet_fresh {α β : Type} [DecidableEq α] :
    ∀ (m : List (α × β)) (k : α) (v : β), (∀ kv ∈ m, kv.1 ≠ k) →
      objSet m k v = m ++ [(k, v)] := by
  intro m k v h
  induction m with
  | nil => simp [objSet]
  | cons kv rest ih =>
    have hk : kv.1 ≠ k := h kv (by simp)
    simp only [objSet, if_neg hk, List.cons_append, List.cons.injEq, true_and]
    exact ih (fun kv' hm => h kv' (by simp [hm]))

theorem foldl_objSet_fresh (cols : List (List Char)) :
    ∀ (l : List (Nat × List Char)) (acc : List (List Char × List Char)),
      (l.map Prod.snd).Nodup →
      (∀ jh ∈ l, ∀ kv ∈ acc, kv.1 ≠ jh.2) →
      l.foldl (fun row hj => objSet row hj.2 (cols.getD hj.1 [])) acc =
        acc ++ l.map (fun jh => (jh.2, cols.getD jh.1 [])) := by
  intro l
  induction l with
  | nil => intro acc _ _; simp
  | cons jh rest ih =>
    intro acc hnd hfresh
    have hhead : jh.2 ∉ rest.map Prod.snd := by
      simp only [List.map_cons, List.nodup_cons] at hnd
      exact hnd.1
    have htail : (rest.map Prod.snd).Nodup := by
      simp only [List.map_cons, List.nodup_cons] at hnd
      exact hnd.2
    simp only [List.foldl_cons]
    rw [objSet_fresh acc jh.2 _ (fun kv hkv => hfresh jh (by simp) kv hkv)]
    rw [ih (acc ++ [(jh.2, cols.getD jh.1 [])]) htail ?_]
    · simp
    · intro jh' hjh' kv hkv
      rcases List.mem_append.1 hkv with hacc | hsing
      · exact hfresh jh' (by simp [hjh']) kv hacc
      · simp only [List.mem_singleton] at hsing
        subst hsing
        intro heq
        simp only at heq
        exact hhead (by rw [heq]; exact List.mem_map.2 ⟨jh', hjh', rfl⟩)

theorem mkRow_eq_zip (header cols : List (List Char)) (hnd : header.Nodup) :
    mkRow header cols = header.enum.map (fun jh => (jh.2, cols.getD jh.1 [])) := by
  unfold mkRow
  rw [foldl_objSet_fresh cols header.enum []]
  · simp
  · rw [List.enum_map_snd]; exact hnd
  · intro jh _ kv hkv
    simp at hkv

/-- C6: a comma inside quotes does not end a field and a doubled quote while
inside quotes decodes to a single literal quote without toggling the flag:
the two example lines split exactly as stated. -/
theorem csv_quoting_spec :
    splitCsvLine (s2l "a,\"b,c\",d") = [s2l "a", s2l "b,c", s2l "d"] ∧
    splitCsvLine (s2l "a,\"b\"\"c\",d") = [s2l "a", s2l "b\"c", s2l "d"] :=
  ⟨by decide, by decide⟩

/-- C7: parse is a total function (defined for every input text) and zips the
split fields positionally against the header columns: with pairwise-distinct
header names the record is literally the positional zip with the empty string
for missing trailing columns, and the two example rows parse as stated (extra
fields beyond the header length are dropped). -/
theorem csv_positional_zip_spec :
    (∀ header cols : List (List Char), header.Nodup →
      mkRow header cols = header.enum.map (fun jh => (jh.2, cols.getD jh.1 []))) ∧
    parseCsv (s2l "a,b,c\nx,y") =
      [[(s2l "a", s2l "x"), (s2l "b", s2l "y"), (s2l "c", [])]] ∧
    parseCsv (s2l "a,b,c\nx,y,z,w") =
      [[(s2l "a", s2l "x"), (s2l "b", s2l "y"), (s2l "c", s2l "z")]] :=
  ⟨mkRow_eq_zip, by decide, by decide⟩

theorem csv_positional_zip_spec_witness :
    mkRow [s2l "a", s2l "b"] [s2l "x"] = [(s2l "a", s2l "x"), (s2l "b", [])] := by
  have h := csv_positional_zip_spec.1 [s2l "a", s2l "b"] [s2l "x"] (by decide)
  exact h.trans (by decide)

/-! ## Byte-order-mark handling (C8) -/

/-- C8 as stated is false on the code: the replace call has no anchor, so the
first U+FEFF anywhere in the text is removed even when the text does not
begin with one — in "a\nx(U+FEFF)y" the data field parses to "xy", not to
the preserved "x(U+FEFF)y". -/
theorem bom_mid_text_counterexample :
    parseCsv (s2l "a\nx﻿y") = [[(s2l "a", s2l "xy")]] ∧
    s2l "xy" ≠ s2l "x﻿y" :=
  ⟨by decide, by decide⟩

/-- C8 amended: before line-splitting, parse removes exactly the first
occurrence of U+FEFF anywhere in the text (hence a leading byte-order-mark is
stripped); a text containing no U+FEFF is left unchanged, and only the
occurrences after the first are preserved. -/
theorem bom_strip_spec :
    (∀ pre post : List Char, '﻿' ∉ pre →
        stripFirstBom (pre ++ '﻿' :: post) = pre ++ post) ∧
    (∀ t : List Char, '﻿' ∉ t → stripFirstBom t = t) ∧
    (∀ t : List Char, parseCsv t = parseCsvNoBom (stripFirstBom t)) := by
  refine ⟨?_, ?_, fun t => rfl⟩
  · intro pre
    induction pre with
    | nil => intro post _; simp [stripFirstBom]
    | cons c rest ih =>
      intro post h
      simp only [List.mem_cons, not_or] at h
      obtain ⟨h1, h2⟩ := h
      simp only [List.cons_append, stripFirstBom, List.append_eq]
      rw [if_neg (fun hc => h1 hc.symm), ih post h2]
  · intro t
    induction t with
    | nil => intro _; rfl
    | cons c rest ih =>
      intro h
      simp only [List.mem_cons, not_or] at h
      obtain ⟨h1, h2⟩ := h
      simp only [stripFirstBom]
      rw [if_neg (fun hc => h1 hc.symm), ih h2]

theorem bom_strip_spec_witness :
    stripFirstBom (s2l "ab" ++ '﻿' :: s2l "cd") = s2l "ab" ++ s2l "cd" :=
  bom_strip_spec.1 (s2l "ab") (s2l "cd") (by decide)

/-! ## Record count and skipped lines (C10) -/

/-- C10: parse yields at most one record per non-empty line after the header,
yields nothing when at most one non-empty line exists (empty text, only
newlines, header with no data), and skips a data line splitting to exactly
one empty field, such as a lone quote or two quote characters. -/
theorem record_count_spec :
    (∀ text : List Char, (parseCsv text).length + 1 ≤ max 1 (csvLines text).length) ∧
    (∀ text : List Char, (csvLines text).length ≤ 1 → parseCsv text = []) ∧
    parseCsv [] = [] ∧
    parseCsv (s2l "\n\n") = [] ∧
    parseCsv (s2l "a\n\"") = [] ∧
    parseCsv (s2l "a,b\n\"\"") = [] := by
  refine ⟨?_, ?_, by decide, by decide, by decide, by decide⟩
  · intro text
    show (parseCsvNoBom (stripFirstBom text)).length + 1 ≤
      max 1 (csvLinesNoBom (stripFirstBom text)).length
    cases hL : csvLinesNoBom (stripFirstBom text) with
    | nil => simp [parseCsvNoBom, hL]
    | cons hd tl =>
      simp only [parseCsvNoBom, hL, List.length_cons]
      have hle := List.length_filterMap_le
        (fun line => if splitCsvLine line = [[]] then none
          else some (mkRow (splitCsvLine hd) (splitCsvLine line))) tl
      have hmax : max 1 (tl.length + 1) = tl.length + 1 := Nat.max_eq_right (by omega)
      omega
  · intro text h
    show parseCsvNoBom (stripFirstBom text) = []
    rw [show csvLines text = csvLinesNoBom (stripFirstBom text) from rfl] at h
    cases hL : csvLinesNoBom (stripFirstBom text) with
    | nil => simp [parseCsvNoBom, hL]
    | cons hd tl =>
      rw [hL] at h
      simp only [List.length_cons] at h
      have : tl = [] := List.length_eq_zero.1 (by omega)
      subst this
      simp [parseCsvNoBom, hL]

theorem record_count_spec_witness : parseCsv (s2l "hdr") = [] :=
  record_count_spec.2.1 (s2l "hdr") (by decide)
